import Mathlib

/-!
Shallow embedding of the asynchronous log engine in
`src/log-server/asynclog/mod.rs`.

The `CommitLog` is an external collaborator (a black box with `append`,
`read`, `flush`, `last_offset`); its per-call results, together with the
buffer pool's `checkout` result, are supplied to each engine step through a
`LogEnv` oracle.  Rust panics (`unwrap`, `unreachable!`) are modelled as
`none`.  Time (`Instant`) is modelled in milliseconds, so
`Duration::from_secs(1)` is the constant `oneSecond = 1000`; `Instant`
subtraction cannot be negative, matching truncated `Nat` subtraction.
-/

namespace AsyncLogModel

/-- Offsets are u64 values assigned by the log; modelled as `Nat`
(offsets only ever come out of the black-box log, no arithmetic overflows
are performed on them in this module). -/
abbrev Offset := Nat

/-- Opaque payload bytes (the contents of an `EasyBuf`). -/
abbrev Payload := List Nat

/-- `std::io::Error` values constructed in this module: all are
`ErrorKind::Other` with a message string. -/
inductive IoErr where
  | other (msg : String)
deriving DecidableEq, Repr

/-- `Error::new(ErrorKind::Other, "append error")` (line 152). -/
def appendError : IoErr := .other "append error"

/-- `Error::new(ErrorKind::Other, "read error")` (line 165). -/
def readError : IoErr := .other "read error"

/-- `Error::new(ErrorKind::Other, "Cancelled")` (line 287). -/
def cancelledError : IoErr := .other "Cancelled"

/-- A oneshot sender (completion handle), identified abstractly. -/
abbrev CompletionId := Nat

/-- The three variants of `MessagesInner` (lines 40–44); each carries the
sequence of message payloads its buffer holds. -/
inductive MessagesInner where
  | Pooled (buf : List Payload)
  | Unpooled (buf : List Payload)
  | UnpooledFromEasyBuf (buf : List Payload)
deriving DecidableEq, Repr

/-- `Messages` (lines 25–27). -/
structure Messages where
  inner : MessagesInner
deriving DecidableEq, Repr

/-- `Messages::push` (lines 47–55): appends to a pooled or unpooled buffer;
the easy-buf-backed variant hits `unreachable!`, modelled as `none`. -/
def Messages.push (m : Messages) (bytes : Payload) : Option Messages :=
  match m.inner with
  | .Pooled buf => some ⟨.Pooled (buf ++ [bytes])⟩
  | .Unpooled buf => some ⟨.Unpooled (buf ++ [bytes])⟩
  | .UnpooledFromEasyBuf _ => none

/-- `commitlog::ReadPosition`: a numeric offset or the "latest" sentinel. -/
inductive ReadPosition where
  | offset (o : Offset)
  | latest
deriving DecidableEq, Repr

/-- `commitlog::ReadLimit`: a byte budget, treated as opaque. -/
abbrev ReadLimit := Nat

/-- An `AppendReq` (line 97): payload plus its completion sender. -/
abbrev AppendReq := Payload × CompletionId

/-- `LogRequest` (lines 90–94). -/
inductive LogRequest where
  | Append (reqs : List AppendReq)
  | LastOffset (res : CompletionId)
  | Read (pos : ReadPosition) (lim : ReadLimit) (res : CompletionId)

/-- Result of the black-box `CommitLog::append`: on success an
`OffsetRange` whose iterator yields the contiguous offsets
`first, first+1, …, first+len-1`. -/
inductive AppendOutcome where
  | ok (first len : Nat)
  | err
deriving DecidableEq, Repr

/-- Result of the black-box `CommitLog::read`. -/
inductive ReadOutcome where
  | ok (buf : List Payload)
  | err
deriving DecidableEq, Repr

/-- Result of the black-box `CommitLog::flush`. -/
inductive FlushOutcome where
  | ok
  | err
deriving DecidableEq, Repr

/-- Oracle for one engine step: the pool's `checkout` result and the
results the black-box `CommitLog` would return for the calls made during
the step. -/
structure LogEnv where
  checkout : Option Unit
  appendResult : AppendOutcome
  lastOffsetResult : Option Offset
  readResult : ReadOutcome
deriving DecidableEq, Repr

/-- The engine state `LogSink` (lines 101–106): the `CommitLog` and the
pool are external resources handled through `LogEnv`; the sink's own
mutable bookkeeping is `last_flush` and `dirty`. -/
structure LogSink where
  last_flush : Nat
  dirty : Bool
deriving DecidableEq, Repr

/-- A value carried by a fired completion. -/
inductive Value where
  | offset (o : Offset)
  | messages (m : Messages)
deriving DecidableEq, Repr

instance exceptDecEq {ε α : Type} [DecidableEq ε] [DecidableEq α] :
    DecidableEq (Except ε α) := fun x y =>
  match x, y with
  | .ok a, .ok b => decidable_of_iff (a = b) (by simp)
  | .error a, .error b => decidable_of_iff (a = b) (by simp)
  | .ok _, .error _ => .isFalse (fun h => Except.noConfusion h)
  | .error _, .ok _ => .isFalse (fun h => Except.noConfusion h)

/-- One `complete` call on a oneshot sender: which sender, and the
`Result` it was fired with. -/
structure Event where
  target : CompletionId
  result : Except IoErr Value
deriving DecidableEq, Repr

/-- Lines 130–135: check out a pooled buffer, or fall back to an owned
`MessageBuf::default()` when the pool is empty.  A pooled buffer has been
`Reset` (cleared) before reuse, so both start empty. -/
def checkoutBuf (co : Option Unit) : Messages :=
  match co with
  | some _ => ⟨.Pooled []⟩
  | none => ⟨.Unpooled []⟩

/-- The `for (bytes, f) in reqs` loop (lines 136–139): push each payload
into the batch buffer in input order and collect the completion senders in
a parallel vector.  `none` propagates a `push` panic. -/
def pushAll (buf : Messages) : List AppendReq → Option (Messages × List CompletionId)
  | [] => some (buf, [])
  | (bytes, f) :: rest =>
    match buf.push bytes with
    | none => none
    | some buf' =>
      match pushAll buf' rest with
      | none => none
      | some (b, fs) => some (b, f :: fs)

/-- `LogSink::start_send` (lines 125–170): executes one drained request
against the log.  Returns the updated sink state and the list of
completion events fired, in order; `none` models a panic.  The source
always returns `Ok(AsyncSink::Ready)`, so a `some` result is the engine
staying ready for further requests. -/
def start_send (env : LogEnv) (s : LogSink) (item : LogRequest) :
    Option (LogSink × List Event) :=
  match item with
  | .Append reqs =>
    match pushAll (checkoutBuf env.checkout) reqs with
    | none => none
    | some (_buf, futures) =>
      match env.appendResult with
      | .ok first len =>
        some ({ s with dirty := true },
          (((List.range len).map (fun i => first + i)).zip futures).map
            (fun p => ⟨p.2, .ok (.offset p.1)⟩))
      | .err =>
        some (s, futures.map (fun f => ⟨f, .error appendError⟩))
  | .LastOffset res =>
    some (s, [⟨res, .ok (.offset (env.lastOffsetResult.getD 0))⟩])
  | .Read _pos _lim res =>
    match env.readResult with
    | .ok buf => some (s, [⟨res, .ok (.messages ⟨.Unpooled buf⟩)⟩])
    | .err => some (s, [⟨res, .error readError⟩])

/-- `Duration::from_secs(1)` in milliseconds. -/
def oneSecond : Nat := 1000

/-- `LogSink::poll_complete` (lines 172–190).  Returns the updated sink
state, the completion events fired during the step (the source fires
none), and whether `CommitLog::flush` was invoked.  The source always
returns `Ok(Async::NotReady)`. -/
def poll_complete (now : Nat) (flushResult : FlushOutcome) (s : LogSink) :
    LogSink × List Event × Bool :=
  if s.dirty then
    if now - s.last_flush > oneSecond then
      match flushResult with
      | .err => (s, [], true)
      | .ok => ({ last_flush := now, dirty := false }, [], true)
    else (s, [], false)
  else (s, [], false)

/-- One step of the engine's driver loop: either a drained request is fed
to `start_send`, or a flush cycle runs `poll_complete` at time `now` with
the flush outcome the black-box log would produce. -/
inductive EngineStep where
  | request (env : LogEnv) (item : LogRequest)
  | flushCycle (now : Nat) (res : FlushOutcome)

/-- Run a sequence of engine steps, collecting the time and outcome of
every `CommitLog::flush` invocation, in order.  A panicking `start_send`
never occurs (see `start_send_append_isSome`); it is skipped for totality. -/
def runEngine : LogSink → List EngineStep → LogSink × List (Nat × FlushOutcome)
  | s, [] => (s, [])
  | s, .request env item :: rest =>
    match start_send env s item with
    | none => runEngine s rest
    | some (s', _) => runEngine s' rest
  | s, .flushCycle now res :: rest =>
    let step := poll_complete now res s
    let tail := runEngine step.1 rest
    (tail.1, (if step.2.2 then [(now, res)] else []) ++ tail.2)

/-- Error of a channel send when the receiving half has been dropped. -/
inductive SendError where
  | disconnected
deriving DecidableEq, Repr

/-- Modelled from the spec: the repository's `batched_mpsc` module
(declared `mod batched_mpsc;` on line 14) is not under src.  Per §4.2,
`send(item)` "always succeeds so long as the receiver has not been
dropped" and "Dropping the receiver causes future sends to fail
observably".  The futures-crate mpsc sender used for the read/meta path
has the same contract. -/
def ingressSend (receiverAlive : Bool) : Except SendError Unit :=
  if receiverAlive then .ok () else .error .disconnected

/-- State of a oneshot receiver at the moment it is polled. -/
inductive OneshotRecv (R : Type) where
  | notReady
  | ready (v : R)
  | senderDropped
deriving DecidableEq, Repr

/-- `LogFuture` (lines 269–271): wraps the oneshot receiver. -/
structure LogFuture (R : Type) where
  f : OneshotRecv (Except IoErr R)
deriving DecidableEq, Repr

/-- `Async` readiness of a poll result. -/
inductive Async (R : Type) where
  | ready (v : R)
  | notReady
deriving DecidableEq, Repr

/-- `LogFuture::poll` (lines 277–290): a fired `Ok` is ready, a fired
`Err` propagates, a pending receiver is `NotReady`, and a dropped sender
(`oneshot::Canceled`) becomes a local "Cancelled" error. -/
def LogFuture.poll {R : Type} (fut : LogFuture R) : Except IoErr (Async R) :=
  match fut.f with
  | .ready (.ok v) => .ok (.ready v)
  | .ready (.error e) => .error e
  | .notReady => .ok .notReady
  | .senderDropped => .error cancelledError

/-- `AsyncLog::append` (lines 244–248): create a oneshot pair, send the
request on the append ingress, and `.unwrap()` the send result — `none`
models the panic of `unwrap` when the send fails.  On success the caller
gets the pending receiver. -/
def AsyncLog.append (receiverAlive : Bool) (_payload : Payload) :
    Option (LogFuture Offset) :=
  match ingressSend receiverAlive with
  | .ok _ => some ⟨.notReady⟩
  | .error _ => none

/-- `AsyncLog::last_offset` (lines 250–256): same shape as `append`, on
the read/meta ingress. -/
def AsyncLog.last_offset (receiverAlive : Bool) : Option (LogFuture Offset) :=
  match ingressSend receiverAlive with
  | .ok _ => some ⟨.notReady⟩
  | .error _ => none

/-- `AsyncLog::read` (lines 258–264): same shape as `append`, on the
read/meta ingress. -/
def AsyncLog.read (receiverAlive : Bool) (_pos : ReadPosition)
    (_lim : ReadLimit) : Option (LogFuture Messages) :=
  match ingressSend receiverAlive with
  | .ok _ => some ⟨.notReady⟩
  | .error _ => none

/-! ### Helper lemmas -/

theorem pushAll_pooled (reqs : List AppendReq) (buf : List Payload) :
    pushAll ⟨.Pooled buf⟩ reqs =
      some (⟨.Pooled (buf ++ reqs.map Prod.fst)⟩, reqs.map Prod.snd) := by
  induction reqs generalizing buf with
  | nil => simp [pushAll]
  | cons r rest ih =>
    obtain ⟨bytes, f⟩ := r
    simp [pushAll, Messages.push, ih]

theorem pushAll_unpooled (reqs : List AppendReq) (buf : List Payload) :
    pushAll ⟨.Unpooled buf⟩ reqs =
      some (⟨.Unpooled (buf ++ reqs.map Prod.fst)⟩, reqs.map Prod.snd) := by
  induction reqs generalizing buf with
  | nil => simp [pushAll]
  | cons r rest ih =>
    obtain ⟨bytes, f⟩ := r
    simp [pushAll, Messages.push, ih]

theorem start_send_append_ok (env : LogEnv) (s : LogSink)
    (reqs : List AppendReq) (first len : Nat)
    (h : env.appendResult = .ok first len) :
    start_send env s (.Append reqs) =
      some ({ s with dirty := true },
        (((List.range len).map (fun i => first + i)).zip (reqs.map Prod.snd)).map
          (fun p => ⟨p.2, .ok (.offset p.1)⟩)) := by
  cases hco : env.checkout <;>
    simp [start_send, checkoutBuf, hco, pushAll_pooled, pushAll_unpooled, h]

theorem start_send_append_err (env : LogEnv) (s : LogSink)
    (reqs : List AppendReq) (h : env.appendResult = .err) :
    start_send env s (.Append reqs) =
      some (s, reqs.map (fun r => ⟨r.2, .error appendError⟩)) := by
  cases hco : env.checkout <;>
    simp [start_send, checkoutBuf, hco, pushAll_pooled, pushAll_unpooled, h,
      List.map_map, Function.comp]

theorem offsets_zip_futures (first len : Nat) (reqs : List AppendReq) :
    (((List.range len).map (fun i => first + i)).zip (reqs.map Prod.snd)).map
      (fun p => (⟨p.2, .ok (.offset p.1)⟩ : Event)) =
      ((List.range len).zip reqs).map
        (fun p => ⟨p.2.2, .ok (.offset (first + p.1))⟩) := by
  rw [List.zip_map, List.map_map]
  rfl

theorem zip_map_snd_take {α β : Type} :
    ∀ (l₁ : List α) (l₂ : List β), l₁.length ≤ l₂.length →
      (l₁.zip l₂).map Prod.snd = l₂.take l₁.length
  | [], _, _ => by simp
  | _ :: _, [], h => by simp at h
  | _ :: t₁, _ :: t₂, h => by
    simp only [List.length_cons, Nat.succ_le_succ_iff] at h
    simp [List.zip_cons_cons, zip_map_snd_take t₁ t₂ h]

/-! ### Claim theorems -/

/-- C2: for a drained append batch of `N` requests, when `CommitLog.append`
succeeds with a contiguous offset range of length `N`, the engine fires
exactly one completion per request, in input order, the `i`-th request's
completion receiving the `i`-th offset `first + i` of the range (and the
step does not panic: it returns ready). -/
theorem append_ok_completions_positional (env : LogEnv) (s : LogSink)
    (reqs : List AppendReq) (first : Nat)
    (h : env.appendResult = .ok first reqs.length) :
    start_send env s (.Append reqs) =
      some ({ s with dirty := true },
        ((List.range reqs.length).zip reqs).map
          (fun p => ⟨p.2.2, .ok (.offset (first + p.1))⟩)) := by
  rw [start_send_append_ok env s reqs first reqs.length h, offsets_zip_futures]

/-- Witness for C2: a concrete two-request batch appended at offsets 5, 6. -/
theorem append_ok_completions_positional_witness :
    start_send ⟨some (), .ok 5 2, none, .err⟩ ⟨0, false⟩
        (.Append [([1], 10), ([2], 11)]) =
      some (⟨0, true⟩,
        ((List.range 2).zip [([1], 10), ([2], 11)]).map
          (fun p => ⟨p.2.2, .ok (.offset (5 + p.1))⟩)) :=
  append_ok_completions_positional ⟨some (), .ok 5 2, none, .err⟩ ⟨0, false⟩
    [([1], 10), ([2], 11)] 5 rfl

/-- C3: when `CommitLog.append` fails, every completion of the batch fires
with the uniform "append error", and the sink state — in particular the
`dirty` flag — is left unchanged. -/
theorem append_err_uniform_and_dirty_unchanged (env : LogEnv) (s : LogSink)
    (reqs : List AppendReq) (h : env.appendResult = .err) :
    start_send env s (.Append reqs) =
      some (s, reqs.map (fun r => ⟨r.2, .error appendError⟩)) :=
  start_send_append_err env s reqs h

/-- Witness for C3: a concrete failed two-request batch. -/
theorem append_err_uniform_witness :
    start_send ⟨some (), .err, none, .err⟩ ⟨7, false⟩
        (.Append [([1], 10), ([2], 11)]) =
      some (⟨7, false⟩,
        [([1], 10), ([2], 11)].map
          (fun r => ⟨r.2, .error appendError⟩)) :=
  append_err_uniform_and_dirty_unchanged ⟨some (), .err, none, .err⟩ ⟨7, false⟩
    [([1], 10), ([2], 11)] rfl

/-- C6: a `LastOffset` request fires its completion exactly once with a
success value — the log's last offset, or `0` when the log reports none
(empty log) — and never with an error; the sink state is unchanged. -/
theorem last_offset_never_fails (env : LogEnv) (s : LogSink)
    (c : CompletionId) :
    start_send env s (.LastOffset c) =
      some (s, [⟨c, .ok (.offset (env.lastOffsetResult.getD 0))⟩]) := rfl

/-- C7: a `Read` request fires its completion exactly once — on read
success with the buffer wrapped as an owned (`Unpooled`) batch, on read
failure with the "read error" — and the sink state is unchanged with the
engine ready for further requests (non-fatal). -/
theorem read_fires_once_nonfatal (env : LogEnv) (s : LogSink)
    (pos : ReadPosition) (lim : ReadLimit) (c : CompletionId) :
    start_send env s (.Read pos lim c) =
      some (s, [⟨c, match env.readResult with
                    | .ok buf => .ok (.messages ⟨.Unpooled buf⟩)
                    | .err => .error readError⟩]) := by
  cases h : env.readResult <;> simp [start_send, h]

/-- C9: polling a `LogFuture` whose completion sender was dropped without
firing yields the terminal "Cancelled" error — not a pending poll and not
a success. -/
theorem dropped_sender_polls_cancelled (R : Type) :
    LogFuture.poll (⟨.senderDropped⟩ : LogFuture R) = .error cancelledError := rfl

/-- C1 counterexample: with the engine receiver dropped, the ingress send
fails and `AsyncLog::append` (likewise `last_offset` and `read`) does not
return any future at all — the `.unwrap()` on the failed send panics
(`none`), so no future failing with an "engine gone" error is returned. -/
theorem send_failure_returns_no_future :
    AsyncLog.append false [65] = none ∧
    AsyncLog.last_offset false = none ∧
    AsyncLog.read false (.offset 0) 1024 = none :=
  ⟨rfl, rfl, rfl⟩

/-- C1 amended: when the ingress send fails because the engine's receiver
has been dropped, `AsyncLog::append`, `last_offset` and `read` panic (the
send result is `.unwrap()`ed) and return no future; when the receiver is
alive the send succeeds and each returns a pending future. -/
theorem send_failure_panics (p : Payload) (pos : ReadPosition)
    (lim : ReadLimit) :
    AsyncLog.append false p = none ∧
    AsyncLog.last_offset false = none ∧
    AsyncLog.read false pos lim = none ∧
    AsyncLog.append true p = some ⟨.notReady⟩ ∧
    AsyncLog.last_offset true = some ⟨.notReady⟩ ∧
    AsyncLog.read true pos lim = some ⟨.notReady⟩ :=
  ⟨rfl, rfl, rfl, rfl, rfl, rfl⟩

/-- C5: when the flush step runs (`dirty` set and more than one second
since `last_flush`), a failing `CommitLog.flush` fires no completion (the
error is surfaced to no producer) and leaves both `dirty` and `last_flush`
unchanged, so a later cycle retries; a successful flush sets
`last_flush = now` and clears `dirty`, also firing no completion. -/
theorem flush_failure_retried_never_surfaced (now : Nat) (s : LogSink)
    (hd : s.dirty = true) (hg : now - s.last_flush > oneSecond) :
    poll_complete now .err s = (s, [], true) ∧
    poll_complete now .ok s = (⟨now, false⟩, [], true) := by
  constructor <;> simp [poll_complete, hd, hg]

/-- Witness for C5: a concrete dirty sink two seconds past its last flush. -/
theorem flush_failure_retried_witness :
    poll_complete 2000 .err ⟨0, true⟩ = (⟨0, true⟩, [], true) ∧
    poll_complete 2000 .ok ⟨0, true⟩ = (⟨2000, false⟩, [], true) :=
  flush_failure_retried_never_surfaced 2000 ⟨0, true⟩ rfl (by decide)

/-- C8: when the pool's `checkout` returns none, the engine falls back to
an owned (`Unpooled`) buffer, the batch is processed without panic
(`start_send` returns a ready result), and the step's outcome is the same
as it would have been with a pooled buffer — pool exhaustion causes no
error. -/
theorem pool_exhaustion_falls_back (env : LogEnv) (s : LogSink)
    (reqs : List AppendReq) (h : env.checkout = none) :
    checkoutBuf env.checkout = ⟨.Unpooled []⟩ ∧
    (start_send env s (.Append reqs)).isSome = true ∧
    start_send env s (.Append reqs) =
      start_send { env with checkout := some () } s (.Append reqs) := by
  refine ⟨by rw [h]; rfl, ?_, ?_⟩
  · cases ha : env.appendResult with
    | ok first len => rw [start_send_append_ok env s reqs first len ha]; rfl
    | err => rw [start_send_append_err env s reqs ha]; rfl
  · cases ha : env.appendResult with
    | ok first len =>
      rw [start_send_append_ok env s reqs first len ha,
        start_send_append_ok
          ⟨some (), .ok first len, env.lastOffsetResult, env.readResult⟩
          s reqs first len rfl]
    | err =>
      rw [start_send_append_err env s reqs ha,
        start_send_append_err
          ⟨some (), .err, env.lastOffsetResult, env.readResult⟩ s reqs rfl]

/-- Witness for C8: a concrete batch handled with an exhausted pool. -/
theorem pool_exhaustion_falls_back_witness :
    checkoutBuf (none : Option Unit) = ⟨.Unpooled []⟩ ∧
    (start_send ⟨none, .ok 0 1, none, .err⟩ ⟨0, false⟩
        (.Append [([9], 3)])).isSome = true ∧
    start_send ⟨none, .ok 0 1, none, .err⟩ ⟨0, false⟩ (.Append [([9], 3)]) =
      start_send ⟨some (), .ok 0 1, none, .err⟩ ⟨0, false⟩
        (.Append [([9], 3)]) :=
  pool_exhaustion_falls_back ⟨none, .ok 0 1, none, .err⟩ ⟨0, false⟩
    [([9], 3)] rfl

/-- C10: when `CommitLog.append` returns fewer offsets than there are
requests, the fired completions are exactly the positional pairs for the
offsets that exist: the fired targets are the first `len` completion
senders and the surplus senders receive no event (their senders are
dropped with the batch), so polling a surplus future observes only the
"Cancelled" error. -/
theorem short_range_drops_surplus_completions (env : LogEnv) (s : LogSink)
    (reqs : List AppendReq) (first len : Nat)
    (h : env.appendResult = .ok first len) (hlen : len < reqs.length) :
    start_send env s (.Append reqs) =
      some ({ s with dirty := true },
        ((List.range len).zip reqs).map
          (fun p => ⟨p.2.2, .ok (.offset (first + p.1))⟩)) ∧
    (((List.range len).zip reqs).map
        (fun p => (⟨p.2.2, .ok (.offset (first + p.1))⟩ : Event))).map
        Event.target = (reqs.map Prod.snd).take len ∧
    LogFuture.poll (⟨.senderDropped⟩ : LogFuture Offset) =
      .error cancelledError := by
  refine ⟨?_, ?_, rfl⟩
  · rw [start_send_append_ok env s reqs first len h, offsets_zip_futures]
  · rw [List.map_map]
    have h1 : (Event.target ∘ fun p : Nat × AppendReq =>
        (⟨p.2.2, .ok (.offset (first + p.1))⟩ : Event)) =
        (Prod.snd ∘ fun p : Nat × AppendReq => (p.1, p.2.2)) := rfl
    rw [h1, ← List.map_map]
    have h2 : ((List.range len).zip reqs).map
        (fun p : Nat × AppendReq => (p.1, p.2.2)) =
        (List.range len).zip (reqs.map Prod.snd) := by
      rw [List.zip_map_right]
      rfl
    rw [h2, zip_map_snd_take _ _ (by simpa using Nat.le_of_lt hlen),
      List.length_range]

/-- Witness for C10: three requests, a two-offset range; only the first
two completions fire. -/
theorem short_range_drops_surplus_witness :
    (start_send ⟨some (), .ok 4 2, none, .err⟩ ⟨0, false⟩
        (.Append [([1], 10), ([2], 11), ([3], 12)]) =
      some (⟨0, true⟩,
        ((List.range 2).zip [([1], 10), ([2], 11), ([3], 12)]).map
          (fun p => ⟨p.2.2, .ok (.offset (4 + p.1))⟩))) ∧
    (((List.range 2).zip [([1], 10), ([2], 11), ([3], 12)]).map
        (fun p => (⟨p.2.2, .ok (.offset (4 + p.1))⟩ : Event))).map
        Event.target =
      ([([1], 10), ([2], 11), ([3], 12)].map Prod.snd).take 2 ∧
    LogFuture.poll (⟨.senderDropped⟩ : LogFuture Offset) =
      .error cancelledError :=
  short_range_drops_surplus_completions ⟨some (), .ok 4 2, none, .err⟩
    ⟨0, false⟩ [([1], 10), ([2], 11), ([3], 12)] 4 2 rfl (by decide)

/-! ### Flush-cadence lemmas -/

theorem start_send_last_flush (env : LogEnv) (s : LogSink) (item : LogRequest)
    (s' : LogSink) (ev : List Event)
    (h : start_send env s item = some (s', ev)) :
    s'.last_flush = s.last_flush := by
  cases item with
  | Append reqs =>
    cases ha : env.appendResult with
    | ok first len =>
      rw [start_send_append_ok env s reqs first len ha] at h
      simp only [Option.some.injEq, Prod.mk.injEq] at h
      rw [← h.1]
    | err =>
      rw [start_send_append_err env s reqs ha] at h
      simp only [Option.some.injEq, Prod.mk.injEq] at h
      rw [← h.1]
  | LastOffset c =>
    simp only [start_send, Option.some.injEq, Prod.mk.injEq] at h
    rw [← h.1]
  | Read pos lim c =>
    cases hr : env.readResult with
    | ok buf =>
      simp only [start_send, hr, Option.some.injEq, Prod.mk.injEq] at h
      rw [← h.1]
    | err =>
      simp only [start_send, hr, Option.some.injEq, Prod.mk.injEq] at h
      rw [← h.1]

theorem poll_complete_last_flush_mono (now : Nat) (res : FlushOutcome)
    (s : LogSink) : s.last_flush ≤ (poll_complete now res s).1.last_flush := by
  cases hd : s.dirty
  · simp [poll_complete, hd]
  · by_cases hg : now - s.last_flush > oneSecond
    · cases res <;> simp [poll_complete, hd, hg] <;> omega
    · simp [poll_complete, hd, hg]

theorem poll_complete_invoked (now : Nat) (res : FlushOutcome) (s : LogSink)
    (h : (poll_complete now res s).2.2 = true) :
    s.dirty = true ∧ now - s.last_flush > oneSecond := by
  cases hd : s.dirty
  · simp [poll_complete, hd] at h
  · by_cases hg : now - s.last_flush > oneSecond
    · exact ⟨rfl, hg⟩
    · simp [poll_complete, hd, hg] at h

theorem runEngine_invocation_gt (s : LogSink) (steps : List EngineStep) :
    ∀ p ∈ (runEngine s steps).2, p.1 > s.last_flush + oneSecond := by
  induction steps generalizing s with
  | nil => simp [runEngine]
  | cons st rest ih =>
    cases st with
    | request env item =>
      intro p hp
      cases hss : start_send env s item with
      | none =>
        simp only [runEngine, hss] at hp
        exact ih s p hp
      | some pr =>
        obtain ⟨s', ev⟩ := pr
        simp only [runEngine, hss] at hp
        have := ih s' p hp
        rw [start_send_last_flush env s item s' ev hss] at this
        exact this
    | flushCycle now res =>
      intro p hp
      simp only [runEngine, List.mem_append] at hp
      rcases hp with hp | hp
      · by_cases hinv : (poll_complete now res s).2.2 = true
        · rw [if_pos hinv] at hp
          simp only [List.mem_singleton] at hp
          subst hp
          have hg := (poll_complete_invoked now res s hinv).2
          simpa using Nat.lt_of_sub_pos (by omega)
        · rw [if_neg hinv] at hp
          simp at hp
      · have hle := poll_complete_last_flush_mono now res s
        have := ih (poll_complete now res s).1 p hp
        omega

/-- C4 is corrected: the gating condition is as claimed, but two flush
invocations can be arbitrarily close when the earlier one fails (the
failed flush leaves `last_flush` unchanged and is retried on the next
cycle).  Amended: `poll_complete` invokes `CommitLog.flush` only when
`dirty` is set and more than one second has elapsed since `last_flush`;
consequently every flush invocation that follows a successful flush
invocation occurs more than the flush interval after that success. -/
theorem flush_gate_and_success_spacing :
    (∀ (now : Nat) (res : FlushOutcome) (s : LogSink),
      (poll_complete now res s).2.2 = true →
        s.dirty = true ∧ now - s.last_flush > oneSecond) ∧
    (∀ (s : LogSink) (steps : List EngineStep)
      (l₁ : List (Nat × FlushOutcome)) (t : Nat)
      (l₂ : List (Nat × FlushOutcome)),
      (runEngine s steps).2 = l₁ ++ (t, .ok) :: l₂ →
        ∀ p ∈ l₂, p.1 > t + oneSecond) := by
  refine ⟨poll_complete_invoked, ?_⟩
  intro s steps
  induction steps generalizing s with
  | nil =>
    intro l₁ t l₂ h
    simp [runEngine] at h
  | cons st rest ih =>
    cases st with
    | request env item =>
      intro l₁ t l₂ h
      cases hss : start_send env s item with
      | none =>
        simp only [runEngine, hss] at h
        exact ih s l₁ t l₂ h
      | some pr =>
        obtain ⟨s', ev⟩ := pr
        simp only [runEngine, hss] at h
        exact ih s' l₁ t l₂ h
    | flushCycle now res =>
      intro l₁ t l₂ h
      simp only [runEngine] at h
      by_cases hinv : (poll_complete now res s).2.2 = true
      · rw [if_pos hinv] at h
        cases l₁ with
        | nil =>
          simp only [List.singleton_append, List.nil_append,
            List.cons.injEq, Prod.mk.injEq] at h
          obtain ⟨⟨hnow, hres⟩, htail⟩ := h
          obtain ⟨hd, hg⟩ := poll_complete_invoked now res s hinv
          have hpc : poll_complete now res s =
              (⟨now, false⟩, [], true) := by
            subst hres
            simp [poll_complete, hd, hg]
          intro p hp
          rw [← htail] at hp
          have := runEngine_invocation_gt (poll_complete now res s).1 rest p hp
          rw [hpc] at this
          simpa [hnow] using this
        | cons a l₁' =>
          simp only [List.singleton_append, List.cons_append,
            List.cons.injEq] at h
          exact ih (poll_complete now res s).1 l₁' t l₂ h.2
      · rw [if_neg hinv, List.nil_append] at h
        exact ih (poll_complete now res s).1 l₁ t l₂ h

/-- C4 counterexample: starting from a fresh sink, one append makes the
log dirty; a flush at `t = 2000` ms fails and is retried at `t = 2001` ms,
so `CommitLog.flush` is invoked twice only one millisecond apart — less
than the one-second flush interval. -/
theorem flush_invocations_close_together :
    (runEngine ⟨0, false⟩
        [.request ⟨some (), .ok 0 1, none, .err⟩ (.Append [([1], 0)]),
         .flushCycle 2000 .err, .flushCycle 2001 .ok]).2 =
      [(2000, .err), (2001, .ok)] ∧ 2001 - 2000 < oneSecond := by
  constructor
  · rfl
  · decide

/-- Witness for C4's amended theorem: the gate fires on a concrete dirty
sink, and in a concrete run a successful flush at `t = 2000` ms is
followed by the next invocation only at `t = 3500` ms. -/
theorem flush_gate_and_success_spacing_witness :
    ((⟨0, true⟩ : LogSink).dirty = true ∧
      2000 - (⟨0, true⟩ : LogSink).last_flush > oneSecond) ∧
    (3500 : Nat) > 2000 + oneSecond := by
  constructor
  · exact flush_gate_and_success_spacing.1 2000 .ok ⟨0, true⟩ rfl
  · exact flush_gate_and_success_spacing.2 ⟨0, true⟩
      [.flushCycle 2000 .ok,
       .request ⟨some (), .ok 1 1, none, .err⟩ (.Append [([2], 0)]),
       .flushCycle 3500 .ok]
      [] 2000 [(3500, .ok)] rfl (3500, .ok) (List.mem_singleton.mpr rfl)

end AsyncLogModel
